import Mathlib

/-!
Verification of the `release-gen` tool of the KeyOS-Releases repository.

The development shallowly embeds the code of
`src/tools/release-gen/src/main.rs` and
`src/tools/release-gen/src/release_manifest.rs`:

* the serde data model (`Action`, `SignedData`, `ReleaseManifest`) together
  with its JSON serialization contract (internally tagged with `action`,
  kebab-case keys, unknown fields denied);
* the pure content comparator `files_are_same`;
* the diff planner embodied in the two loops of `run`;
* the effectful skeleton of `run` (pre-condition checks, the
  `FileCleanupGuard`, staging, archiving) as a state-passing function over an
  explicit filesystem model.

File contents are modelled as lists of bytes (`List Nat`), paths as strings,
directory trees as association lists from relative path to content in
directory-walk enumeration order.
-/

namespace ReleaseGen

/-- JSON values: the target of `serde_json` serialization.  Numbers are not
needed by the manifest schema, so they are omitted. -/
inductive Json where
  | str (s : String)
  | bool (b : Bool)
  | arr (elems : List Json)
  | obj (fields : List (String × Json))
deriving Repr

/-- The `Action` enum of `release_manifest.rs` (lines 15-71), verbatim: all
twelve variants, `Transaction` nesting a list of actions. -/
inductive Action where
  | Transaction (actions : List Action)
  | Patch (patch_file patch_source base_version new_version : String)
  | PatchAdd (patch_file patch_source dest base_version new_version : String)
  | Add (source dest : String)
  | Replace (source dest new_version : String)
  | UpdateBt
  | Delete (path : String)
  | Rename (source dest : String)
  | Move (source dest : String)
  | Copy (source dest : String)
  | Set (setting value : String)
  | OpenApp (app_id route : String)
deriving Repr

/-- Serialization of `Action` per its serde attributes:
`#[serde(tag = "action", rename_all = "kebab-case", deny_unknown_fields)]`,
with the per-variant `rename_all = "kebab-case"` on `Patch`, `PatchAdd`,
`Replace` and `OpenApp`.  The discriminant tag is emitted first, then the
fields in declaration order. -/
def encodeAction : Action → Json
  | .Transaction actions =>
      .obj [("action", .str "transaction"),
            ("actions", .arr (actions.attach.map fun a => encodeAction a.1))]
  | .Patch pf ps bv nv =>
      .obj [("action", .str "patch"), ("patch-file", .str pf),
            ("patch-source", .str ps), ("base-version", .str bv),
            ("new-version", .str nv)]
  | .PatchAdd pf ps d bv nv =>
      .obj [("action", .str "patch-add"), ("patch-file", .str pf),
            ("patch-source", .str ps), ("dest", .str d),
            ("base-version", .str bv), ("new-version", .str nv)]
  | .Add s d =>
      .obj [("action", .str "add"), ("source", .str s), ("dest", .str d)]
  | .Replace s d nv =>
      .obj [("action", .str "replace"), ("source", .str s),
            ("dest", .str d), ("new-version", .str nv)]
  | .UpdateBt => .obj [("action", .str "update-bt")]
  | .Delete p => .obj [("action", .str "delete"), ("path", .str p)]
  | .Rename s d =>
      .obj [("action", .str "rename"), ("source", .str s), ("dest", .str d)]
  | .Move s d =>
      .obj [("action", .str "move"), ("source", .str s), ("dest", .str d)]
  | .Copy s d =>
      .obj [("action", .str "copy"), ("source", .str s), ("dest", .str d)]
  | .Set k v =>
      .obj [("action", .str "set"), ("setting", .str k), ("value", .str v)]
  | .OpenApp a r =>
      .obj [("action", .str "open-app"), ("app-id", .str a),
            ("route", .str r)]
decreasing_by
  simp only [Action.Transaction.sizeOf_spec]
  have := List.sizeOf_lt_of_mem a.2
  omega

/-- First value bound to key `k` in a JSON object's field list. -/
def lookupField (k : String) : List (String × Json) → Option Json
  | [] => none
  | (k', v) :: rest => if k' = k then some v else lookupField k rest

/-- Extract a JSON string. -/
def asStr : Json → Option String
  | .str s => some s
  | _ => none

/-- Extract a JSON boolean. -/
def asBool : Json → Option Bool
  | .bool b => some b
  | _ => none

/-- Every key of the object is in the allowed set (the reading side of serde's
`deny_unknown_fields`). -/
def keysAllowed (fields : List (String × Json)) (allowed : List String) : Bool :=
  fields.all fun kv => allowed.contains kv.1

/-- A value found by `lookupField` is a component of the field list; needed to
justify termination of the deserializer below. -/
theorem sizeOf_lookupField {k : String} :
    ∀ {fields : List (String × Json)} {v : Json},
      lookupField k fields = some v → sizeOf v < sizeOf fields := by
  intro fields
  induction fields with
  | nil => intro v h; simp [lookupField] at h
  | cons kv rest ih =>
    intro v h
    obtain ⟨k', v'⟩ := kv
    rw [lookupField] at h
    by_cases hk : k' = k
    · subst hk
      rw [if_pos rfl] at h
      rw [Option.some.injEq] at h
      subst h
      simp only [List.cons.sizeOf_spec, Prod.mk.sizeOf_spec]
      omega
    · rw [if_neg hk] at h
      have := ih h
      simp only [List.cons.sizeOf_spec]
      omega

/-- Look up a field and require it to be a JSON string. -/
def getStr (k : String) (fields : List (String × Json)) : Option String :=
  match lookupField k fields with
  | some (.str s) => some s
  | _ => none

/-- Deserialization of the eleven non-recursive `Action` variants, dispatched
on the value of the `action` discriminant tag: field order is irrelevant,
fields outside the variant's set are rejected (`deny_unknown_fields`). -/
def decodeFlat (tag : String) (fields : List (String × Json)) : Option Action :=
  if tag = "patch" then
        if keysAllowed fields
            ["action", "patch-file", "patch-source", "base-version",
             "new-version"] then
          match getStr "patch-file" fields, getStr "patch-source" fields,
              getStr "base-version" fields, getStr "new-version" fields with
          | some pf, some ps, some bv, some nv => some (.Patch pf ps bv nv)
          | _, _, _, _ => none
        else none
      else if tag = "patch-add" then
        if keysAllowed fields
            ["action", "patch-file", "patch-source", "dest", "base-version",
             "new-version"] then
          match getStr "patch-file" fields, getStr "patch-source" fields,
              getStr "dest" fields, getStr "base-version" fields,
              getStr "new-version" fields with
          | some pf, some ps, some d, some bv, some nv =>
            some (.PatchAdd pf ps d bv nv)
          | _, _, _, _, _ => none
        else none
      else if tag = "add" then
        if keysAllowed fields ["action", "source", "dest"] then
          match getStr "source" fields, getStr "dest" fields with
          | some s, some d => some (.Add s d)
          | _, _ => none
        else none
      else if tag = "replace" then
        if keysAllowed fields ["action", "source", "dest", "new-version"] then
          match getStr "source" fields, getStr "dest" fields,
              getStr "new-version" fields with
          | some s, some d, some nv => some (.Replace s d nv)
          | _, _, _ => none
        else none
      else if tag = "update-bt" then
        if keysAllowed fields ["action"] then some .UpdateBt else none
      else if tag = "delete" then
        if keysAllowed fields ["action", "path"] then
          match getStr "path" fields with
          | some p => some (.Delete p)
          | none => none
        else none
      else if tag = "rename" then
        if keysAllowed fields ["action", "source", "dest"] then
          match getStr "source" fields, getStr "dest" fields with
          | some s, some d => some (.Rename s d)
          | _, _ => none
        else none
      else if tag = "move" then
        if keysAllowed fields ["action", "source", "dest"] then
          match getStr "source" fields, getStr "dest" fields with
          | some s, some d => some (.Move s d)
          | _, _ => none
        else none
      else if tag = "copy" then
        if keysAllowed fields ["action", "source", "dest"] then
          match getStr "source" fields, getStr "dest" fields with
          | some s, some d => some (.Copy s d)
          | _, _ => none
        else none
      else if tag = "set" then
        if keysAllowed fields ["action", "setting", "value"] then
          match getStr "setting" fields, getStr "value" fields with
          | some s, some v => some (.Set s v)
          | _, _ => none
        else none
  else if tag = "open-app" then
    if keysAllowed fields ["action", "app-id", "route"] then
      match getStr "app-id" fields, getStr "route" fields with
      | some a, some r => some (.OpenApp a r)
      | _, _ => none
    else none
  else none

mutual

/-- Deserialization of `Action` per its serde attributes: the object must
carry the discriminant under the `action` key; the recursive `Transaction`
variant is handled here, the flat variants by `decodeFlat`. -/
def decodeAction : Json → Option Action
  | .obj fields =>
    match lookupField "action" fields with
    | some (.str tag) =>
      if tag = "transaction" then
        if keysAllowed fields ["action", "actions"] then
          match h : lookupField "actions" fields with
          | some (.arr elems) =>
            match decodeActions elems with
            | some as => some (.Transaction as)
            | none => none
          | _ => none
        else none
      else decodeFlat tag fields
    | _ => none
  | _ => none
termination_by j => sizeOf j
decreasing_by
  have h1 := sizeOf_lookupField h
  simp only [Json.obj.sizeOf_spec, Json.arr.sizeOf_spec] at *
  omega

/-- Deserialize a JSON array's elements as actions, failing if any element
fails. -/
def decodeActions : List Json → Option (List Action)
  | [] => some []
  | j :: rest =>
    match decodeAction j, decodeActions rest with
    | some a, some as => some (a :: as)
    | _, _ => none
termination_by js => sizeOf js
decreasing_by
  all_goals simp only [List.cons.sizeOf_spec]
  all_goals omega

end

/-! ## The signed manifest envelope

`run` (main.rs lines 193-201) and the integration test build and read a
`ReleaseManifest` made of a `signature` and a `signed_data : SignedData`
block, importing both names from `release_manifest`; the provided copy of
`release_manifest.rs` however holds an older, flat `ReleaseManifest` without
them, so the envelope declaration itself is missing from the sources. -/

/-- Modelled from the spec: the `SignedData` block, "a signed-data block of
{label, mandatory flag, ISO date, actions}", serialized with kebab-case keys
and unknown fields rejected on read.  Its declaration is missing from the
provided sources; only its construction site in `run` and the integration
test use it. -/
structure SignedData where
  label : String
  mandatory : Bool
  date : String
  actions : List Action
deriving Repr

/-- Modelled from the spec: "**ReleaseManifest** — the top-level signed
payload: a signature placeholder, and a signed-data block".  The declaration
is missing from the provided sources (see `SignedData`); `run` constructs it
with the fixed placeholder signature `"deadbeef"`. -/
structure ReleaseManifest where
  signature : String
  signed_data : SignedData
deriving Repr

/-- Serialization of `SignedData`: kebab-case field names in declaration
order (all four names are single words, so kebab-casing leaves them
unchanged). -/
def encodeSignedData (s : SignedData) : Json :=
  .obj [("label", .str s.label), ("mandatory", .bool s.mandatory),
        ("date", .str s.date), ("actions", .arr (s.actions.map encodeAction))]

/-- Serialization of `ReleaseManifest`: kebab-case turns `signed_data` into
the `signed-data` key. -/
def encodeManifest (m : ReleaseManifest) : Json :=
  .obj [("signature", .str m.signature),
        ("signed-data", encodeSignedData m.signed_data)]

/-- Deserialization of `SignedData`, rejecting unknown fields
(`deny_unknown_fields`). -/
def decodeSignedData (j : Json) : Option SignedData :=
  match j with
  | .obj fields =>
    if keysAllowed fields ["label", "mandatory", "date", "actions"] then
      match getStr "label" fields, lookupField "mandatory" fields,
          getStr "date" fields, lookupField "actions" fields with
      | some l, some (.bool m), some d, some (.arr elems) =>
        match decodeActions elems with
        | some as => some ⟨l, m, d, as⟩
        | none => none
      | _, _, _, _ => none
    else none
  | _ => none

/-- Deserialization of `ReleaseManifest`, rejecting unknown fields. -/
def decodeManifest (j : Json) : Option ReleaseManifest :=
  match j with
  | .obj fields =>
    if keysAllowed fields ["signature", "signed-data"] then
      match getStr "signature" fields, lookupField "signed-data" fields with
      | some sig, some sd =>
        match decodeSignedData sd with
        | some s => some ⟨sig, s⟩
        | none => none
      | _, _ => none
    else none
  | _ => none

/-! ## The content comparator -/

/-- File contents as byte lists. -/
abbrev Bytes := List Nat

/-- The buffer size of `files_are_same` (main.rs lines 274-275, `[0; 1024]`). -/
def chunkSize : Nat := 1024

/-- The read loop of `files_are_same` (main.rs lines 277-293): each round
reads up to 1024 bytes from each file; end-of-input on the first file breaks
the loop with success, a mismatch between the chunks read returns `false`. -/
def sameLoop (b1 b2 : Bytes) : Bool :=
  if b1.isEmpty then true
  else if b1.take chunkSize ≠ b2.take chunkSize then false
  else sameLoop (b1.drop chunkSize) (b2.drop chunkSize)
termination_by b1.length
decreasing_by
  rename_i hne _
  simp only [List.isEmpty_iff] at hne
  have hpos : 0 < b1.length := List.length_pos.mpr hne
  rw [List.length_drop]
  simp only [chunkSize]
  omega

/-- `files_are_same` (main.rs lines 259-296) applied to the byte contents of
the two files: the size fast path (metadata lengths, lines 265-267), then the
chunked loop. -/
def filesAreSame (b1 b2 : Bytes) : Bool :=
  if b1.length ≠ b2.length then false else sameLoop b1 b2

/-! ## The diff planner -/

/-- A directory tree as enumerated by `rec_get_all_files_in_tree`: relative
path and byte content, in directory-walk enumeration order. -/
abbrev Tree := List (String × Bytes)

/-- The content of the file a tree holds at a relative path. -/
def lookupTree (p : String) : Tree → Option Bytes
  | [] => none
  | (q, c) :: rest => if q = p then some c else lookupTree p rest

/-- The relative path list of a tree, in walk order (`base_src_files`,
`new_src_files` of main.rs lines 98-115). -/
def treePaths (t : Tree) : List String := t.map Prod.fst

/-- The action the first loop of `run` emits for one base entry (main.rs
lines 119-161): a path absent from the new tree
(`!new_src_files.contains(base_file)`, i.e. `lookupTree` fails) yields
`Delete`; a path present in both trees is compared with `files_are_same` and
yields `Patch` when the contents differ, no action when they are equal. -/
def basePassAction (bv nv : String) (newT : Tree) (pc : String × Bytes) :
    Option Action :=
  match lookupTree pc.1 newT with
  | none => some (.Delete pc.1)
  | some c' =>
    if filesAreSame pc.2 c' then none
    else some (.Patch pc.1 pc.1 bv nv)

/-- The actions the first loop of `run` emits, walking the base tree in
order. -/
def basePassActions (bv nv : String) (base newT : Tree) : List Action :=
  base.filterMap (basePassAction bv nv newT)

/-- The action the second loop of `run` emits for one new-tree entry (main.rs
lines 162-189): a path absent from the base tree yields `Add` with identical
source and destination. -/
def addPassAction (base : Tree) (pc : String × Bytes) : Option Action :=
  if (treePaths base).contains pc.1 then none
  else some (.Add pc.1 pc.1)

/-- The actions the second loop of `run` emits, walking the new tree in
order. -/
def addPassActions (base newT : Tree) : List Action :=
  newT.filterMap (addPassAction base)

/-- The full action list collected by the two loops of `run`, before being
wrapped in the single top-level `Transaction` (main.rs line 191). -/
def planActions (bv nv : String) (base newT : Tree) : List Action :=
  basePassActions bv nv base newT ++ addPassActions base newT

/-- The patch artifact the first loop stages for one base entry: for a
changed path, one file holding the bytes the diff tool wrote for it. -/
def basePassStagedEntry (ub : String → Bytes) (newT : Tree)
    (pc : String × Bytes) : Option (String × Bytes) :=
  match lookupTree pc.1 newT with
  | none => none
  | some c' =>
    if filesAreSame pc.2 c' then none
    else some (pc.1, ub pc.1)

/-- The patch artifacts the first loop stages for the changed paths. -/
def basePassStaged (ub : String → Bytes) (base newT : Tree) :
    List (String × Bytes) :=
  base.filterMap (basePassStagedEntry ub newT)

/-- The artifact the second loop stages for one added path: a verbatim copy
of the new file (`std::io::copy`, main.rs line 177). -/
def addPassStagedEntry (base : Tree) (pc : String × Bytes) :
    Option (String × Bytes) :=
  if (treePaths base).contains pc.1 then none
  else some pc

/-- The artifacts the second loop stages for the added paths. -/
def addPassStaged (base newT : Tree) : List (String × Bytes) :=
  newT.filterMap (addPassStagedEntry base)

/-- The full content of the staging `patch` directory on a successful run. -/
def stagedTree (updiffBytes : String → Bytes) (base newT : Tree) :
    List (String × Bytes) :=
  basePassStaged updiffBytes base newT ++ addPassStaged base newT

/-! ## The effectful skeleton of `run`

`run` is modelled as a state-passing function over the slice of the
filesystem it touches at the output location: the output tar file, the
staging `patch` directory and the `manifest.json` staging file.  Subprocess
behaviour (the probe of the diff tool and its per-file invocations) is an
input of the model. -/

/-- Outcome of `Command::new(updiff_path).output()` with no arguments, the
probe of main.rs line 58: either the spawn failed with an error message, or
the tool ran and exited with some status (which `run` ignores). -/
inductive ProbeResult where
  | spawnErr (msg : String)
  | ran (status : Nat)
deriving Repr

/-- Outcome of one diff invocation for a changed path: spawning failed
(`output()` returned `Err`), or the tool ran with the given success flag,
standard error text, and bytes written to the patch file. -/
inductive UpdiffResult where
  | spawnErr (msg : String)
  | ran (ok : Bool) (stderrText : String) (patch : Bytes)
deriving Repr

/-- The inputs of `run`: the CLI arguments that matter to the model, the
current date, the two walked trees, and the behaviour of the external diff
tool. -/
structure Env where
  baseVersion : String
  newVersion : String
  label : String
  mandatory : Bool
  today : String
  base : Tree
  newT : Tree
  probe : ProbeResult
  updiff : String → UpdiffResult

/-- `hay.contains(needle)` on Rust strings: some tail of `hay` starts with
`needle` (substring containment). -/
def strContains (hay needle : String) : Bool :=
  hay.data.tails.any fun t => needle.data.isPrefixOf t

/-- The output tar file: `blank` right after `File::create_new` (main.rs line
73), `built` once the tar builder has appended the staging tree under the
top-level name `patch` and the `manifest.json` member (lines 211-213). -/
inductive TarFile where
  | blank
  | built (patch : List (String × Bytes)) (manifestMember : Json)
deriving Repr

/-- The filesystem slice at the output location.  `manifestFile` is `none`
when absent, `some none` when created empty, `some (some j)` once the
serialized manifest `j` has been written to it. -/
structure Fs where
  tar : Option TarFile
  patchDir : Option (List (String × Bytes))
  manifestFile : Option (Option Json)
deriving Repr

/-- How the modelled `run` terminated. -/
inductive RunResult where
  | ok
  | err (msg : String)
  | exited (code : Nat)
  | panicked (msg : String)
deriving Repr

/-- `FileCleanupGuard::drop` (main.rs lines 223-236): removes the registered
manifest file and staging patch directory, leaving the tar file alone.  In
Rust this destructor runs on every scope exit of `run` after line 93 — normal
return and error return alike — but not when the process is terminated by
`std::process::exit`, which skips destructors. -/
def cleanupFs (fs : Fs) : Fs := ⟨fs.tar, none, none⟩

/-- Outcome of the first loop of `run`: either it finished with the staged
artifacts and collected actions, or the diff tool's spawn failed (an error
return propagated with `?`, line 144), or the diff tool exited non-zero and
`run` called `std::process::exit(1)` (lines 146-149).  The staged artifacts
written so far are carried on every outcome. -/
inductive LoopOut where
  | done (staged : List (String × Bytes)) (acts : List Action)
  | spawnFailed (msg : String) (staged : List (String × Bytes))
  | exited (staged : List (String × Bytes))

/-- The first loop of `run` (main.rs lines 119-161), threading the staging
directory content and the action list.  For a changed path the empty
placeholder patch file is created first (line 134), then the diff tool runs:
on spawn failure the placeholder stays staged and the error propagates; on
non-zero exit the placeholder stays staged and the process exits; on success
the patch file holds the tool's output and a `Patch` action is pushed. -/
def baseLoop (env : Env) :
    Tree → List (String × Bytes) → List Action → LoopOut
  | [], staged, acts => .done staged acts
  | pc :: rest, staged, acts =>
    match lookupTree pc.1 env.newT with
    | none => baseLoop env rest staged (acts ++ [.Delete pc.1])
    | some c' =>
      if filesAreSame pc.2 c' then baseLoop env rest staged acts
      else
        match env.updiff pc.1 with
        | .spawnErr msg => .spawnFailed msg (staged ++ [(pc.1, [])])
        | .ran ok _stderrText patch =>
          if ok then
            baseLoop env rest (staged ++ [(pc.1, patch)])
              (acts ++ [.Patch pc.1 pc.1 env.baseVersion env.newVersion])
          else .exited (staged ++ [(pc.1, [])])

/-- The second loop of `run` (main.rs lines 162-189), staging a copy of every
added file and pushing an `Add` action. -/
def addLoop (base : Tree) :
    Tree → List (String × Bytes) → List Action →
      List (String × Bytes) × List Action
  | [], staged, acts => (staged, acts)
  | pc :: rest, staged, acts =>
    if (treePaths base).contains pc.1 then addLoop base rest staged acts
    else addLoop base rest (staged ++ [pc]) (acts ++ [.Add pc.1 pc.1])

/-- The portion of `run` after the probe (main.rs lines 68-215): the
existence preconditions, the guard, the two loops, manifest serialization and
archiving.  The guard is constructed at line 93 and never released; its
destructor runs on every return path after that line, but not on the
`std::process::exit(1)` path. -/
def runAfterProbe (env : Env) (fs : Fs) : RunResult × Fs :=
  -- create_dir_all on the output parent directory (line 71): no-op here.
  -- File::create_new(&args.out), line 73.
  if fs.tar.isSome then
    (.err "Tar file already exists. Please delete it before generating a new release.", fs)
  else
    let fs1 : Fs := ⟨some .blank, fs.patchDir, fs.manifestFile⟩
    -- std::fs::create_dir(&out_patch_dir), line 88.
    if fs1.patchDir.isSome then (.err "Creating patch dir", fs1)
    else
      let fs2 : Fs := ⟨fs1.tar, some [], fs1.manifestFile⟩
      -- File::create_new(&manifest_file_path).expect(..), line 90.
      if fs2.manifestFile.isSome then
        (.panicked "Manifest file should not exist", fs2)
      else
        let fs3 : Fs := ⟨fs2.tar, fs2.patchDir, some none⟩
        -- The guard now exists; every return below except `exited` cleans up.
        match baseLoop env env.base [] [] with
        | .spawnFailed msg staged =>
          (.err msg, cleanupFs ⟨fs3.tar, some staged, fs3.manifestFile⟩)
        | .exited staged =>
          (.exited 1, ⟨fs3.tar, some staged, fs3.manifestFile⟩)
        | .done staged acts =>
          let (staged2, acts2) := addLoop env.base env.newT staged acts
          let manifest : ReleaseManifest :=
            ⟨"deadbeef", ⟨env.label, env.mandatory, env.today, [.Transaction acts2]⟩⟩
          let serialized : Json := encodeManifest manifest
          let fs4 : Fs := ⟨fs3.tar, some staged2, some (some serialized)⟩
          -- tar.append_dir_all("patch", ..); tar.append_file("manifest.json", ..).
          let fs5 : Fs := ⟨some (.built staged2 serialized), fs4.patchDir, fs4.manifestFile⟩
          (.ok, cleanupFs fs5)

/-- `run` (main.rs lines 57-216): the probe of the diff tool, then the rest.
A spawn error whose text contains "No such file or directory" aborts with the
tool-not-found message; any other spawn error, and any exit status of the
probe, is ignored. -/
def runModel (env : Env) (fs : Fs) : RunResult × Fs :=
  match env.probe with
  | .spawnErr msg =>
    if strContains msg "No such file or directory" then
      (.err "updiff tool not found", fs)
    else runAfterProbe env fs
  | .ran _ => runAfterProbe env fs

/-- The relative path an emitted action is about: the deleted path, the
patched file, or the added source.  Variants the planner never emits carry no
path. -/
def actionPath : Action → Option String
  | .Delete p => some p
  | .Patch pf _ _ _ => some pf
  | .Add s _ => some s
  | _ => none

/-- Rank of an action in the grouping the spec asserts: deletions first,
then patches, then additions. -/
def actionRank : Action → Nat
  | .Delete _ => 0
  | .Patch _ _ _ _ => 1
  | .Add _ _ => 2
  | _ => 3

/-- A rank list is non-decreasing: the formalization of "all deletes before
all patches before all adds" for a list of emitted actions. -/
def ranksSorted : List Nat → Bool
  | [] => true
  | [_] => true
  | a :: b :: rest => decide (a ≤ b) && ranksSorted (b :: rest)

/-- The classification bucket of a relative path. -/
inductive Bucket where
  | deleted
  | added
  | patched
  | unchanged
deriving Repr, DecidableEq

/-- Classification of a relative path against the two trees, by the
membership and content tests the two loops of `run` perform; `none` when the
path is in neither tree. -/
def classify (base newT : Tree) (p : String) : Option Bucket :=
  match lookupTree p base, lookupTree p newT with
  | some c, some c' =>
    some (if filesAreSame c c' then .unchanged else .patched)
  | some _, none => some .deleted
  | none, some _ => some .added
  | none, none => none

/-- The bytes the diff tool writes for a path (the last component of its
invocation outcome; meaningful for paths whose invocation ran). -/
def updiffBytes (env : Env) (p : String) : Bytes :=
  match env.updiff p with
  | .spawnErr _ => []
  | .ran _ _ patch => patch

/-! ## Round-trip of the serialization contract -/

/-- Elementwise round-trip lifts to action lists. -/
theorem decodeActions_map_encode {as : List Action}
    (dec : ∀ a ∈ as, decodeAction (encodeAction a) = some a) :
    decodeActions (as.map encodeAction) = some as := by
  induction as with
  | nil => simp [decodeActions]
  | cons a rest ihr =>
    simp [decodeActions, dec a (by simp),
      ihr (fun x hx => dec x (List.mem_cons_of_mem a hx))]

/-- Serializing any `Action` and deserializing the result gives it back. -/
theorem decodeAction_encodeAction : ∀ a : Action, decodeAction (encodeAction a) = some a
  | .Transaction as => by
    have ih : ∀ x ∈ as, decodeAction (encodeAction x) = some x :=
      fun x hx => decodeAction_encodeAction x
    rw [encodeAction, decodeAction]
    simp [lookupField, keysAllowed, decodeActions_map_encode ih, List.attach_map_coe]
  | .Patch pf ps bv nv => by
    simp [encodeAction, decodeAction, decodeFlat, lookupField, keysAllowed, getStr, asStr]
  | .PatchAdd pf ps d bv nv => by
    simp [encodeAction, decodeAction, decodeFlat, lookupField, keysAllowed, getStr, asStr]
  | .Add s d => by
    simp [encodeAction, decodeAction, decodeFlat, lookupField, keysAllowed, getStr, asStr]
  | .Replace s d nv => by
    simp [encodeAction, decodeAction, decodeFlat, lookupField, keysAllowed, getStr, asStr]
  | .UpdateBt => by
    simp [encodeAction, decodeAction, decodeFlat, lookupField, keysAllowed, getStr, asStr]
  | .Delete p => by
    simp [encodeAction, decodeAction, decodeFlat, lookupField, keysAllowed, getStr, asStr]
  | .Rename s d => by
    simp [encodeAction, decodeAction, decodeFlat, lookupField, keysAllowed, getStr, asStr]
  | .Move s d => by
    simp [encodeAction, decodeAction, decodeFlat, lookupField, keysAllowed, getStr, asStr]
  | .Copy s d => by
    simp [encodeAction, decodeAction, decodeFlat, lookupField, keysAllowed, getStr, asStr]
  | .Set k v => by
    simp [encodeAction, decodeAction, decodeFlat, lookupField, keysAllowed, getStr, asStr]
  | .OpenApp a r => by
    simp [encodeAction, decodeAction, decodeFlat, lookupField, keysAllowed, getStr, asStr]
termination_by a => sizeOf a
decreasing_by
  have := List.sizeOf_lt_of_mem hx
  simp only [Action.Transaction.sizeOf_spec]
  omega

/-- C6: for every `Action` value, of every variant including the variants
this core never emits (`PatchAdd`, `Replace`, `UpdateBt`, `Rename`, `Move`,
`Copy`, `Set`, `OpenApp`) and arbitrarily nested `Transaction`, serializing
it and deserializing the result yields the original value. -/
theorem c6_action_roundtrip (a : Action) : decodeAction (encodeAction a) = some a :=
  decodeAction_encodeAction a

/-! ## Correctness of the content comparator -/

/-- For streams of equal length the chunked loop decides content equality. -/
theorem sameLoop_eq_iff : ∀ b1 b2 : Bytes, b1.length = b2.length →
    (sameLoop b1 b2 = true ↔ b1 = b2) := by
  intro b1 b2
  induction b1, b2 using sameLoop.induct with
  | case1 b1 b2 hempty =>
    intro hlen
    rw [sameLoop, if_pos hempty]
    rw [List.isEmpty_iff] at hempty
    subst hempty
    simp at hlen
    simp [List.eq_nil_of_length_eq_zero hlen.symm]
  | case2 b1 b2 hempty hne =>
    intro hlen
    rw [sameLoop, if_neg hempty, if_pos hne]
    constructor
    · intro h; exact absurd h (by simp)
    · intro h; subst h; exact absurd rfl hne
  | case3 b1 b2 hempty hne ih =>
    intro hlen
    rw [sameLoop, if_neg hempty, if_neg hne]
    rw [not_not] at hne
    have hlen' : (b1.drop chunkSize).length = (b2.drop chunkSize).length := by
      simp [List.length_drop, hlen]
    rw [ih hlen']
    constructor
    · intro hdrop
      calc b1 = b1.take chunkSize ++ b1.drop chunkSize := (List.take_append_drop _ _).symm
        _ = b2.take chunkSize ++ b2.drop chunkSize := by rw [hne, hdrop]
        _ = b2 := List.take_append_drop _ _
    · intro h; rw [h]

/-- C4: `files_are_same` returns true exactly when the two byte contents are
identical, and whenever the sizes differ it returns false straight from the
metadata fast path, before the read loop. -/
theorem c4_files_equal_iff (b1 b2 : Bytes) :
    (filesAreSame b1 b2 = true ↔ b1 = b2)
    ∧ (b1.length ≠ b2.length → filesAreSame b1 b2 = false) := by
  constructor
  · by_cases hlen : b1.length = b2.length
    · rw [filesAreSame, if_neg (by simpa using hlen)]
      exact sameLoop_eq_iff b1 b2 hlen
    · rw [filesAreSame, if_pos hlen]
      constructor
      · intro h; exact absurd h (by simp)
      · intro h; subst h; exact absurd rfl hlen
  · intro hlen; rw [filesAreSame, if_pos hlen]

/-- C4 witness: equal contents compare equal, contents of different sizes do
not. -/
theorem c4_files_equal_iff_witness :
    filesAreSame [0] [0] = true ∧ filesAreSame [0] [0, 1] = false :=
  ⟨(c4_files_equal_iff [0] [0]).1.mpr rfl,
   (c4_files_equal_iff [0] [0, 1]).2 (by decide)⟩

/-! ## Association-list facts about trees -/

theorem lookupTree_eq_none_iff {p : String} :
    ∀ {t : Tree}, lookupTree p t = none ↔ p ∉ treePaths t := by
  intro t
  induction t with
  | nil => simp [lookupTree, treePaths]
  | cons pc rest ih =>
    obtain ⟨q, c⟩ := pc
    rw [lookupTree]
    by_cases hq : q = p
    · subst hq
      simp [treePaths]
    · rw [if_neg hq]
      simp only [treePaths, List.map_cons, List.mem_cons] at *
      constructor
      · intro h
        rcases ih.mp h with h'
        intro hcon
        rcases hcon with h1 | h2
        · exact hq h1.symm
        · exact h' h2
      · intro h
        exact ih.mpr fun hm => h (Or.inr hm)

theorem mem_of_lookupTree {p : String} {c : Bytes} :
    ∀ {t : Tree}, lookupTree p t = some c → (p, c) ∈ t := by
  intro t
  induction t with
  | nil => intro h; simp [lookupTree] at h
  | cons pc rest ih =>
    obtain ⟨q, c'⟩ := pc
    intro h
    rw [lookupTree] at h
    by_cases hq : q = p
    · subst hq
      rw [if_pos rfl, Option.some.injEq] at h
      subst h
      exact List.mem_cons_self _ _
    · rw [if_neg hq] at h
      exact List.mem_cons_of_mem _ (ih h)

theorem lookupTree_of_mem_nodup {p : String} {c : Bytes} :
    ∀ {t : Tree}, (p, c) ∈ t → (treePaths t).Nodup → lookupTree p t = some c := by
  intro t
  induction t with
  | nil => intro h; simp at h
  | cons pc rest ih =>
    obtain ⟨q, c'⟩ := pc
    intro hmem hnd
    rw [treePaths, List.map_cons, List.nodup_cons] at hnd
    rw [lookupTree]
    rcases List.mem_cons.mp hmem with heq | htail
    · rw [Prod.mk.injEq] at heq
      rw [if_pos heq.1.symm, heq.2]
    · have hp : p ∈ treePaths rest := by
        rw [treePaths, List.mem_map]
        exact ⟨(p, c), htail, rfl⟩
      have hq : q ≠ p := fun h => hnd.1 (h ▸ hp)
      rw [if_neg hq]
      exact ih htail hnd.2


/-! ## Counting lemmas for the planner -/

/-- Bounding a count over a `filterMap` by a count over the source list. -/
theorem countP_filterMap_le {α β : Type} (f : α → Option β) (q : β → Bool) (r : α → Bool)
    (h : ∀ x y, f x = some y → q y = true → r x = true) :
    ∀ l : List α, (l.filterMap f).countP q ≤ l.countP r := by
  intro l
  induction l with
  | nil => simp
  | cons x rest ih =>
    rw [List.filterMap_cons, List.countP_cons]
    cases hf : f x with
    | none => exact Nat.le_trans ih (Nat.le_add_right _ _)
    | some y =>
      rw [List.countP_cons]
      by_cases hq : q y = true
      · have hr := h x y hf hq
        simp only [hq, hr, if_pos rfl]
        have := ih
        omega
      · have hq' : q y = false := by
          cases hqy : q y
          · rfl
          · exact absurd hqy hq
        simp [hq']
        have := ih
        omega

/-- In a duplicate-free list each value occurs at most once. -/
theorem countP_eq_pred_nodup {l : List String} (hl : l.Nodup) (p : String) :
    l.countP (fun s => decide (s = p)) ≤ 1 := by
  induction l with
  | nil => simp
  | cons x rest ih =>
    rw [List.nodup_cons] at hl
    rw [List.countP_cons]
    by_cases hx : x = p
    · subst hx
      have hzero : rest.countP (fun s => decide (s = x)) = 0 := by
        rw [List.countP_eq_zero]
        intro a ha
        simp only [decide_eq_true_eq]
        intro heq
        exact hl.1 (heq ▸ ha)
      simp [hzero]
    · simp only [hx, decide_eq_true_eq]
      simpa using ih hl.2

theorem basePassAction_path {bv nv : String} {newT : Tree} {x : String × Bytes} {a : Action}
    (h : basePassAction bv nv newT x = some a) : actionPath a = some x.1 := by
  rw [basePassAction] at h
  split at h
  · injection h with h'; subst h'; rfl
  · split at h
    · exact absurd h (by simp)
    · injection h with h'; subst h'; rfl

theorem basePassAction_shape {bv nv : String} {newT : Tree} {x : String × Bytes} {a : Action}
    (h : basePassAction bv nv newT x = some a) :
    (∃ p, a = .Delete p) ∨ ∃ pf ps b n, a = .Patch pf ps b n := by
  rw [basePassAction] at h
  split at h
  · injection h with h'; exact Or.inl ⟨x.1, h'.symm⟩
  · split at h
    · exact absurd h (by simp)
    · injection h with h'
      exact Or.inr ⟨x.1, x.1, bv, nv, h'.symm⟩

theorem addPassAction_path {base : Tree} {x : String × Bytes} {a : Action}
    (h : addPassAction base x = some a) :
    a = .Add x.1 x.1 ∧ x.1 ∉ treePaths base := by
  rw [addPassAction] at h
  by_cases hc : (treePaths base).contains x.1 = true
  · rw [if_pos hc] at h; exact absurd h (by simp)
  · rw [if_neg hc] at h
    injection h with h'
    refine ⟨h'.symm, fun hm => hc ?_⟩
    exact List.elem_eq_true_of_mem hm


def pathCount (p : String) (l : List Action) : Nat :=
  l.countP fun a => decide (actionPath a = some p)

theorem basePass_pathCount_le {bv nv : String} {base newT : Tree}
    (hb : (treePaths base).Nodup) (p : String) :
    pathCount p (basePassActions bv nv base newT) ≤ 1 := by
  rw [pathCount, basePassActions]
  have h1 := countP_filterMap_le (basePassAction bv nv newT)
    (fun a => decide (actionPath a = some p)) (fun x => decide (x.1 = p))
    (fun x y hf hqy => by
      have hpath := basePassAction_path hf
      simp only [decide_eq_true_eq] at hqy ⊢
      rw [hpath] at hqy
      injection hqy) base
  have h2 : (treePaths base).countP (fun s => decide (s = p)) =
      base.countP (fun x => decide (x.1 = p)) := by
    rw [treePaths, List.countP_map]
    rfl
  exact Nat.le_trans h1 (h2 ▸ countP_eq_pred_nodup hb p)

theorem addPass_pathCount_le {base newT : Tree}
    (hn : (treePaths newT).Nodup) (p : String) :
    pathCount p (addPassActions base newT) ≤ 1 := by
  rw [pathCount, addPassActions]
  have h1 := countP_filterMap_le (addPassAction base)
    (fun a => decide (actionPath a = some p)) (fun x => decide (x.1 = p))
    (fun x y hf hqy => by
      have hpath := (addPassAction_path hf).1
      simp only [decide_eq_true_eq] at hqy ⊢
      rw [hpath] at hqy
      simp [actionPath] at hqy
      exact hqy) newT
  have h2 : (treePaths newT).countP (fun s => decide (s = p)) =
      newT.countP (fun x => decide (x.1 = p)) := by
    rw [treePaths, List.countP_map]
    rfl
  exact Nat.le_trans h1 (h2 ▸ countP_eq_pred_nodup hn p)

theorem basePass_pathCount_zero {bv nv : String} {base newT : Tree}
    (hnp : p ∉ treePaths base) :
    pathCount p (basePassActions bv nv base newT) = 0 := by
  rw [pathCount, basePassActions, List.countP_eq_zero]
  intro a ha
  rw [List.mem_filterMap] at ha
  obtain ⟨x, hx, hfx⟩ := ha
  have hpath := basePassAction_path hfx
  simp only [decide_eq_true_eq]
  intro hap
  rw [hpath] at hap
  injection hap with hxp
  exact hnp (by rw [treePaths]; exact List.mem_map.mpr ⟨x, hx, hxp⟩)

theorem addPass_pathCount_zero {base newT : Tree}
    (hmem : p ∈ treePaths base) :
    pathCount p (addPassActions base newT) = 0 := by
  rw [pathCount, addPassActions, List.countP_eq_zero]
  intro a ha
  rw [List.mem_filterMap] at ha
  obtain ⟨x, hx, hfx⟩ := ha
  obtain ⟨heq, hnot⟩ := addPassAction_path hfx
  simp only [decide_eq_true_eq]
  intro hap
  rw [heq] at hap
  simp only [actionPath, Option.some.injEq] at hap
  exact hnot (hap ▸ hmem)

theorem classify_isSome {base newT : Tree} {p : String}
    (hp : p ∈ treePaths base ∨ p ∈ treePaths newT) :
    ∃ b, classify base newT p = some b := by
  rcases hlb : lookupTree p base with _ | c <;>
    rcases hln : lookupTree p newT with _ | c'
  · exfalso
    rcases hp with hp | hp
    · exact lookupTree_eq_none_iff.mp hlb hp
    · exact lookupTree_eq_none_iff.mp hln hp
  · exact ⟨.added, by simp [classify, hlb, hln]⟩
  · exact ⟨.deleted, by simp [classify, hlb, hln]⟩
  · exact ⟨if filesAreSame c c' then .unchanged else .patched,
      by simp [classify, hlb, hln]⟩

theorem unchanged_pathCount_zero {bv nv : String} {base newT : Tree}
    (hb : (treePaths base).Nodup) {p : String}
    (hu : classify base newT p = some .unchanged) :
    pathCount p (planActions bv nv base newT) = 0 := by
  rcases hlb : lookupTree p base with _ | c <;>
    rcases hln : lookupTree p newT with _ | c' <;>
    rw [classify] at hu <;> rw [hlb, hln] at hu <;> simp only [] at hu
  case _ => exact absurd hu (by simp)
  case _ => exact absurd hu (by simp)
  case _ => exact absurd hu (by simp)
  case _ =>
    have hsame : filesAreSame c c' = true := by
      by_cases hs : filesAreSame c c' = true
      · exact hs
      · rw [if_neg hs] at hu
        exact absurd hu (by simp)
    have hpbase : p ∈ treePaths base := by
      rw [treePaths]
      exact List.mem_map.mpr ⟨(p, c), mem_of_lookupTree hlb, rfl⟩
    have haz : pathCount p (addPassActions base newT) = 0 :=
      addPass_pathCount_zero hpbase
    have hbz : pathCount p (basePassActions bv nv base newT) = 0 := by
      rw [pathCount, basePassActions, List.countP_eq_zero]
      intro a ha
      rw [List.mem_filterMap] at ha
      obtain ⟨x, hx, hfx⟩ := ha
      have hpath := basePassAction_path hfx
      simp only [decide_eq_true_eq]
      intro hap
      rw [hpath] at hap
      injection hap with hxp
      have hxmem : (p, x.2) ∈ base := by
        rw [← hxp]
        simpa using hx
      have hlx := lookupTree_of_mem_nodup hxmem hb
      rw [hlb] at hlx
      injection hlx with hx2
      rw [basePassAction, hxp, hln] at hfx
      rw [hx2] at hsame
      simp [hsame] at hfx
    rw [planActions, pathCount, List.countP_append]
    rw [pathCount] at hbz haz
    rw [hbz, haz]

/-- C7: every relative path in the union of the two trees is classified into
exactly one of deleted, added, patched, unchanged; the planner emits at most
one action per path, and none at all for an unchanged path. -/
theorem c7_plan_partition (bv nv : String) (base newT : Tree)
    (hb : (treePaths base).Nodup) (hn : (treePaths newT).Nodup)
    (p : String) (hp : p ∈ treePaths base ∨ p ∈ treePaths newT) :
    (∃ b, classify base newT p = some b)
    ∧ pathCount p (planActions bv nv base newT) ≤ 1
    ∧ (classify base newT p = some .unchanged →
        pathCount p (planActions bv nv base newT) = 0) := by
  refine ⟨classify_isSome hp, ?_, unchanged_pathCount_zero hb⟩
  rw [planActions, pathCount, List.countP_append]
  by_cases hmem : p ∈ treePaths base
  · have h1 : pathCount p (basePassActions bv nv base newT) ≤ 1 :=
      basePass_pathCount_le hb p
    have h2 : pathCount p (addPassActions base newT) = 0 :=
      addPass_pathCount_zero hmem
    rw [pathCount] at h1 h2
    omega
  · have h1 : pathCount p (basePassActions bv nv base newT) = 0 :=
      basePass_pathCount_zero hmem
    have h2 : pathCount p (addPassActions base newT) ≤ 1 :=
      addPass_pathCount_le hn p
    rw [pathCount] at h1 h2
    omega

/-- C7 witness: the add/delete scenario of the spec, checked at the deleted
path. -/
theorem c7_plan_partition_witness :
    (treePaths [("keep", ([] : Bytes)), ("old", [0])]).Nodup
    ∧ (treePaths [("keep", ([] : Bytes)), ("fresh", [1])]).Nodup
    ∧ ("old" ∈ treePaths [("keep", ([] : Bytes)), ("old", [0])]
        ∨ "old" ∈ treePaths [("keep", ([] : Bytes)), ("fresh", [1])])
    ∧ ((∃ b, classify [("keep", ([] : Bytes)), ("old", [0])]
          [("keep", ([] : Bytes)), ("fresh", [1])] "old" = some b)
      ∧ pathCount "old" (planActions "v1" "v2"
          [("keep", ([] : Bytes)), ("old", [0])]
          [("keep", ([] : Bytes)), ("fresh", [1])]) ≤ 1
      ∧ (classify [("keep", ([] : Bytes)), ("old", [0])]
            [("keep", ([] : Bytes)), ("fresh", [1])] "old" = some .unchanged →
          pathCount "old" (planActions "v1" "v2"
            [("keep", ([] : Bytes)), ("old", [0])]
            [("keep", ([] : Bytes)), ("fresh", [1])]) = 0)) :=
  ⟨by decide, by decide, by decide,
   c7_plan_partition "v1" "v2"
     [("keep", ([] : Bytes)), ("old", [0])]
     [("keep", ([] : Bytes)), ("fresh", [1])]
     (by decide) (by decide) "old" (by decide)⟩


/-! ## Bridging the run loops to the planner -/

/-- The second loop accumulates exactly the add-pass staging and actions. -/
theorem addLoop_eq (base : Tree) :
    ∀ (t : Tree) (staged : List (String × Bytes)) (acts : List Action),
      addLoop base t staged acts =
        (staged ++ addPassStaged base t, acts ++ addPassActions base t) := by
  intro t
  induction t with
  | nil =>
    intro staged acts
    simp [addLoop, addPassStaged, addPassActions]
  | cons pc rest ih =>
    intro staged acts
    rw [addLoop]
    by_cases hc : (treePaths base).contains pc.1 = true
    · rw [if_pos hc, ih]
      have hm : pc.1 ∈ treePaths base := by simpa using hc
      simp [addPassStaged, addPassActions, addPassStagedEntry, addPassAction,
        List.filterMap_cons, hm]
    · rw [if_neg hc, ih]
      have hm : pc.1 ∉ treePaths base := by simpa using hc
      simp [addPassStaged, addPassActions, addPassStagedEntry, addPassAction,
        List.filterMap_cons, hm]

/-- When the first loop finishes without aborting it has accumulated exactly
the base-pass staging and actions. -/
theorem baseLoop_done (env : Env) :
    ∀ (t : Tree) (staged : List (String × Bytes)) (acts : List Action)
      {s : List (String × Bytes)} {a : List Action},
      baseLoop env t staged acts = .done s a →
      s = staged ++ basePassStaged (updiffBytes env) t env.newT
      ∧ a = acts ++ basePassActions env.baseVersion env.newVersion t env.newT := by
  intro t
  induction t with
  | nil =>
    intro staged acts s a h
    rw [baseLoop] at h
    injection h with h1 h2
    subst h1; subst h2
    simp [basePassStaged, basePassActions]
  | cons pc rest ih =>
    intro staged acts s a h
    rw [baseLoop] at h
    cases hl : lookupTree pc.1 env.newT with
    | none =>
      rw [hl] at h
      obtain ⟨h1, h2⟩ := ih _ _ h
      subst h1; subst h2
      constructor
      · simp [basePassStaged, basePassStagedEntry, List.filterMap_cons, hl]
      · simp [basePassActions, basePassAction, List.filterMap_cons, hl]
    | some c' =>
      rw [hl] at h
      simp only [] at h
      by_cases hs : filesAreSame pc.2 c' = true
      · rw [if_pos hs] at h
        obtain ⟨h1, h2⟩ := ih _ _ h
        subst h1; subst h2
        constructor
        · simp [basePassStaged, basePassStagedEntry, List.filterMap_cons, hl, hs]
        · simp [basePassActions, basePassAction, List.filterMap_cons, hl, hs]
      · rw [if_neg hs] at h
        cases hu : env.updiff pc.1 with
        | spawnErr msg =>
          rw [hu] at h
          exact absurd h (by simp)
        | ran ok stderrText patch =>
          rw [hu] at h
          simp only [] at h
          cases ok with
          | false => simp at h
          | true =>
            rw [if_pos rfl] at h
            obtain ⟨h1, h2⟩ := ih _ _ h
            subst h1; subst h2
            have hub : updiffBytes env pc.1 = patch := by
              rw [updiffBytes, hu]
            constructor
            · simp [basePassStaged, basePassStagedEntry, List.filterMap_cons,
                hl, hs, hub]
            · simp [basePassActions, basePassAction, List.filterMap_cons,
                hl, hs]

/-- The manifest `run` builds from its inputs (main.rs lines 193-201). -/
def runManifest (env : Env) : ReleaseManifest :=
  ⟨"deadbeef",
   ⟨env.label, env.mandatory, env.today,
    [.Transaction (planActions env.baseVersion env.newVersion env.base env.newT)]⟩⟩

/-- On a successful pass through `runAfterProbe` the final filesystem holds
exactly the built archive; the guard has removed both staging paths. -/
theorem runAfterProbe_ok (env : Env) (fs : Fs)
    (h : (runAfterProbe env fs).1 = .ok) :
    (runAfterProbe env fs).2 =
      ⟨some (.built (stagedTree (updiffBytes env) env.base env.newT)
          (encodeManifest (runManifest env))), none, none⟩ := by
  cases htar : fs.tar with
  | some t =>
    rw [runAfterProbe] at h
    simp [htar] at h
  | none =>
    cases hpd : fs.patchDir with
    | some d =>
      rw [runAfterProbe] at h
      simp [htar, hpd] at h
    | none =>
      cases hmf : fs.manifestFile with
      | some m =>
        rw [runAfterProbe] at h
        simp [htar, hpd, hmf] at h
      | none =>
        cases hbl : baseLoop env env.base [] [] with
        | spawnFailed msg staged =>
          rw [runAfterProbe] at h
          simp [htar, hpd, hmf, hbl] at h
        | exited staged =>
          rw [runAfterProbe] at h
          simp [htar, hpd, hmf, hbl] at h
        | done staged acts =>
          obtain ⟨hs, ha⟩ := baseLoop_done env env.base [] [] hbl
          rw [runAfterProbe]
          simp only [htar, hpd, hmf, hbl, addLoop_eq, Option.isSome_none,
            Bool.false_eq_true, if_false, Option.isSome_some]
          rw [hs, ha]
          simp [cleanupFs, runManifest, stagedTree, planActions]

/-- On a successful run the final filesystem holds exactly the built archive
with the staging tree and the serialized manifest. -/
theorem runModel_ok_fs (env : Env) (fs : Fs)
    (h : (runModel env fs).1 = .ok) :
    (runModel env fs).2 =
      ⟨some (.built (stagedTree (updiffBytes env) env.base env.newT)
          (encodeManifest (runManifest env))), none, none⟩ := by
  rw [runModel] at h ⊢
  cases hp : env.probe with
  | spawnErr msg =>
    rw [hp] at h
    simp only [] at h ⊢
    by_cases hc : strContains msg "No such file or directory" = true
    · rw [if_pos hc] at h
      exact absurd h (by simp)
    · rw [if_neg hc] at h ⊢
      exact runAfterProbe_ok env fs h
  | ran st =>
    rw [hp] at h
    simp only [] at h
    exact runAfterProbe_ok env fs h


/-! ## Ordering of the emitted actions -/

/-- The delete/patch segment lists its paths in base-walk order. -/
theorem basePass_paths_sublist {bv nv : String} {base newT : Tree} :
    List.Sublist ((basePassActions bv nv base newT).filterMap actionPath) (treePaths base) := by
  induction base with
  | nil => simp [basePassActions, treePaths]
  | cons pc rest ih =>
    rw [basePassActions, List.filterMap_cons]
    cases hf : basePassAction bv nv newT pc with
    | none =>
      rw [treePaths, List.map_cons]
      exact List.Sublist.cons _ ih
    | some a =>
      rw [List.filterMap_cons, basePassAction_path hf]
      rw [treePaths, List.map_cons]
      exact List.Sublist.cons₂ _ ih

/-- The add segment lists its paths in new-walk order. -/
theorem addPass_paths_sublist {base newT : Tree} :
    List.Sublist ((addPassActions base newT).filterMap actionPath) (treePaths newT) := by
  induction newT with
  | nil => simp [addPassActions, treePaths]
  | cons pc rest ih =>
    rw [addPassActions, List.filterMap_cons]
    cases hf : addPassAction base pc with
    | none =>
      rw [treePaths, List.map_cons]
      exact List.Sublist.cons _ ih
    | some a =>
      rw [List.filterMap_cons]
      have hpath : actionPath a = some pc.1 := by
        rw [(addPassAction_path hf).1]; rfl
      rw [hpath]
      rw [treePaths, List.map_cons]
      exact List.Sublist.cons₂ _ ih

/-- A run on which the diff planner emits a `Patch` before a `Delete`: base
tree holds `a` (changed) then `b` (removed), new tree holds only a modified
`a`. -/
def c2Env : Env :=
  ⟨"v1", "v2", "L", false, "D", [("a", [0]), ("b", [0])], [("a", [0, 1])],
   .ran 0, fun _ => .ran true "" [5]⟩

/-- C2 counterexample: this successful run emits the transaction
`[Patch a, Delete b]` — a `Patch` strictly before a `Delete` — so the action
list is not grouped deletes-then-patches-then-adds as claimed. -/
theorem c2_counterexample :
    (runModel c2Env ⟨none, none, none⟩).1 = .ok
    ∧ (runModel c2Env ⟨none, none, none⟩).2.tar =
        some (.built [("a", [5])] (encodeManifest ⟨"deadbeef",
          ⟨"L", false, "D", [.Transaction
            [.Patch "a" "a" "v1" "v2", .Delete "b"]]⟩⟩))
    ∧ ranksSorted (([Action.Patch "a" "a" "v1" "v2",
        Action.Delete "b"]).map actionRank) = false :=
  ⟨rfl, rfl, rfl⟩

/-- C2 amended: in the emitted transaction the deletes and patches come
first, interleaved in base-walk order (not deletes before patches), and all
adds come last in new-walk order. -/
theorem c2_amended_order (env : Env) (fs : Fs)
    (h : (runModel env fs).1 = .ok) :
    ∃ dp ad staged,
      (runModel env fs).2.tar = some (.built staged (encodeManifest
        ⟨"deadbeef", ⟨env.label, env.mandatory, env.today,
          [.Transaction (dp ++ ad)]⟩⟩))
      ∧ (∀ a ∈ dp, (∃ p, a = .Delete p) ∨ ∃ pf ps b n, a = .Patch pf ps b n)
      ∧ (∀ a ∈ ad, ∃ s d, a = .Add s d)
      ∧ List.Sublist (dp.filterMap actionPath) (treePaths env.base)
      ∧ List.Sublist (ad.filterMap actionPath) (treePaths env.newT) := by
  refine ⟨basePassActions env.baseVersion env.newVersion env.base env.newT,
    addPassActions env.base env.newT,
    stagedTree (updiffBytes env) env.base env.newT, ?_, ?_, ?_,
    basePass_paths_sublist, addPass_paths_sublist⟩
  · rw [runModel_ok_fs env fs h]
    simp [runManifest, planActions]
  · intro a ha
    rw [basePassActions, List.mem_filterMap] at ha
    obtain ⟨x, _, hf⟩ := ha
    exact basePassAction_shape hf
  · intro a ha
    rw [addPassActions, List.mem_filterMap] at ha
    obtain ⟨x, _, hf⟩ := ha
    exact ⟨x.1, x.1, (addPassAction_path hf).1⟩

/-- C2 amended witness: the run of `c2Env` succeeds and its transaction
satisfies the amended ordering. -/
theorem c2_amended_order_witness :
    ((runModel c2Env ⟨none, none, none⟩).1 = .ok)
    ∧ (∃ dp ad staged,
        (runModel c2Env ⟨none, none, none⟩).2.tar = some (.built staged
          (encodeManifest ⟨"deadbeef", ⟨c2Env.label, c2Env.mandatory,
            c2Env.today, [.Transaction (dp ++ ad)]⟩⟩))
        ∧ (∀ a ∈ dp, (∃ p, a = .Delete p) ∨ ∃ pf ps b n, a = .Patch pf ps b n)
        ∧ (∀ a ∈ ad, ∃ s d, a = .Add s d)
        ∧ List.Sublist (dp.filterMap actionPath) (treePaths c2Env.base)
        ∧ List.Sublist (ad.filterMap actionPath) (treePaths c2Env.newT)) :=
  ⟨rfl, c2_amended_order c2Env ⟨none, none, none⟩ rfl⟩

/-! ## The archive, the manifest shape, and the cleanup guard -/

/-- C5: on every successful run the output archive is built to contain the
staging directory patch tree under the fixed top-level name `patch` together
with a `manifest.json` member whose content is the serialized manifest, which
was written to the manifest file before archiving. -/
theorem c5_archive_content (env : Env) (fs : Fs)
    (h : (runModel env fs).1 = .ok) :
    (runModel env fs).2.tar =
      some (.built (stagedTree (updiffBytes env) env.base env.newT)
        (encodeManifest (runManifest env))) := by
  rw [runModel_ok_fs env fs h]

/-- A trivial successful run for the C5 witness: empty base and new trees. -/
def c5Env : Env :=
  ⟨"v1", "v2", "KeyOS Release", false, "2026-01-01", [], [], .ran 0,
   fun _ => .ran true "" []⟩

/-- C5 witness. -/
theorem c5_archive_content_witness :
    ((runModel c5Env ⟨none, none, none⟩).1 = .ok)
    ∧ (runModel c5Env ⟨none, none, none⟩).2.tar =
        some (.built (stagedTree (updiffBytes c5Env) c5Env.base c5Env.newT)
          (encodeManifest (runManifest c5Env))) :=
  ⟨rfl, c5_archive_content c5Env ⟨none, none, none⟩ rfl⟩

/-- C1: the manifest serialized into the archive of every successful run is a
JSON object with exactly the kebab-case keys `signature` (the fixed
placeholder `"deadbeef"`) and `signed-data` (an object with exactly the keys
`label`, `mandatory`, `date`, `actions`), and both deserializers reject any
object holding a key outside their field set. -/
theorem c1_manifest_shape (env : Env) (fs : Fs)
    (h : (runModel env fs).1 = .ok) :
    (∃ acts, (runModel env fs).2.tar =
      some (.built (stagedTree (updiffBytes env) env.base env.newT)
        (Json.obj [("signature", Json.str "deadbeef"),
          ("signed-data", Json.obj
            [("label", Json.str env.label),
             ("mandatory", Json.bool env.mandatory),
             ("date", Json.str env.today),
             ("actions", Json.arr [encodeAction (.Transaction acts)])])])))
    ∧ (∀ fields m, decodeManifest (.obj fields) = some m →
        keysAllowed fields ["signature", "signed-data"] = true)
    ∧ (∀ fields sd, decodeSignedData (.obj fields) = some sd →
        keysAllowed fields ["label", "mandatory", "date", "actions"] = true) := by
  refine ⟨⟨planActions env.baseVersion env.newVersion env.base env.newT, ?_⟩,
    ?_, ?_⟩
  · rw [runModel_ok_fs env fs h]
    simp [encodeManifest, encodeSignedData, runManifest]
  · intro fields m hm
    rw [decodeManifest] at hm
    by_cases hk : keysAllowed fields ["signature", "signed-data"] = true
    · exact hk
    · rw [if_neg hk] at hm
      exact absurd hm (by simp)
  · intro fields sd hm
    rw [decodeSignedData] at hm
    by_cases hk : keysAllowed fields ["label", "mandatory", "date", "actions"] = true
    · exact hk
    · rw [if_neg hk] at hm
      exact absurd hm (by simp)

/-- A successful run with one added file for the C1 witness. -/
def c1Env : Env :=
  ⟨"v1", "v2", "KeyOS Release", true, "2026-01-02", [], [("x", [7])], .ran 0,
   fun _ => .ran true "" []⟩

/-- C1 witness. -/
theorem c1_manifest_shape_witness :
    ((runModel c1Env ⟨none, none, none⟩).1 = .ok)
    ∧ ((∃ acts, (runModel c1Env ⟨none, none, none⟩).2.tar =
        some (.built (stagedTree (updiffBytes c1Env) c1Env.base c1Env.newT)
          (Json.obj [("signature", Json.str "deadbeef"),
            ("signed-data", Json.obj
              [("label", Json.str c1Env.label),
               ("mandatory", Json.bool c1Env.mandatory),
               ("date", Json.str c1Env.today),
               ("actions", Json.arr [encodeAction (.Transaction acts)])])])))
      ∧ (∀ fields m, decodeManifest (.obj fields) = some m →
          keysAllowed fields ["signature", "signed-data"] = true)
      ∧ (∀ fields sd, decodeSignedData (.obj fields) = some sd →
          keysAllowed fields ["label", "mandatory", "date", "actions"] = true)) :=
  ⟨rfl, c1_manifest_shape c1Env ⟨none, none, none⟩ rfl⟩

/-- A run whose diff subprocess exits non-zero on the changed file `a`. -/
def c3ExitEnv : Env :=
  ⟨"v1", "v2", "L", false, "D", [("a", [0])], [("a", [0, 1])], .ran 0,
   fun _ => .ran false "boom" []⟩

/-- C3 counterexample: on the exit path taken when the diff subprocess exits
non-zero (`std::process::exit(1)` skips destructors), the guard does not run:
the registered manifest file and staging patch directory (holding the
placeholder patch file) are left behind. -/
theorem c3_counterexample :
    (runModel c3ExitEnv ⟨none, none, none⟩).1 = .exited 1
    ∧ (runModel c3ExitEnv ⟨none, none, none⟩).2.manifestFile = some none
    ∧ (runModel c3ExitEnv ⟨none, none, none⟩).2.patchDir = some [("a", [])] :=
  ⟨rfl, rfl, rfl⟩

/-- C3 amended: starting from a clean output location, the guard removes its
registered paths on every exit path of the run except the
`std::process::exit(1)` path taken when the diff subprocess exits non-zero. -/
theorem c3_amended_cleanup_after_probe (env : Env) (fs : Fs)
    (h1 : fs.tar = none) (h2 : fs.patchDir = none) (h3 : fs.manifestFile = none)
    (hne : ∀ code, (runAfterProbe env fs).1 ≠ .exited code) :
    (runAfterProbe env fs).2.manifestFile = none
    ∧ (runAfterProbe env fs).2.patchDir = none := by
  rw [runAfterProbe]
  simp only [h1, h2, h3, Option.isSome_none, Bool.false_eq_true, if_false]
  cases hbl : baseLoop env env.base [] [] with
  | spawnFailed msg staged => simp [cleanupFs]
  | exited staged =>
    exfalso
    apply hne 1
    rw [runAfterProbe]
    simp [h1, h2, h3, hbl]
  | done staged acts =>
    simp only []
    rw [addLoop_eq]
    simp [cleanupFs]

/-- When the probe does not abort, `run` is its post-probe portion. -/
theorem runModel_eq_afterProbe (env : Env) (fs : Fs)
    (hprobe : ∀ msg, env.probe = .spawnErr msg →
      strContains msg "No such file or directory" = false) :
    runModel env fs = runAfterProbe env fs := by
  rw [runModel]
  cases hp : env.probe with
  | spawnErr msg =>
    simp only []
    rw [hprobe msg hp]
    simp
  | ran st => simp only []

/-- C3 amended, full form: starting from a clean output location, on every
exit path of `run` other than the process-exit path taken when the diff
subprocess exits non-zero, the cleanup guard removes the manifest file and
the staging patch directory (there is no release mechanism, so this covers
success as well). -/
theorem c3_amended_cleanup (env : Env) (fs : Fs)
    (h1 : fs.tar = none) (h2 : fs.patchDir = none) (h3 : fs.manifestFile = none)
    (hne : ∀ code, (runModel env fs).1 ≠ .exited code) :
    (runModel env fs).2.manifestFile = none
    ∧ (runModel env fs).2.patchDir = none := by
  rw [runModel] at hne ⊢
  cases hp : env.probe with
  | spawnErr msg =>
    rw [hp] at hne
    simp only [] at hne ⊢
    by_cases hc : strContains msg "No such file or directory" = true
    · rw [if_pos hc]
      exact ⟨h3, h2⟩
    · rw [if_neg hc] at hne ⊢
      exact c3_amended_cleanup_after_probe env fs h1 h2 h3 hne
  | ran st =>
    rw [hp] at hne
    simp only [] at hne ⊢
    exact c3_amended_cleanup_after_probe env fs h1 h2 h3 hne

/-- A successful run (one add) for the C3 witness. -/
def c3OkEnv : Env :=
  ⟨"v1", "v2", "L", false, "D", [], [("x", [7])], .ran 0,
   fun _ => .ran true "" []⟩

/-- C3 amended witness: a run that does not hit the process-exit path ends
with both staging paths removed. -/
theorem c3_amended_cleanup_witness :
    ((⟨none, none, none⟩ : Fs).tar = none)
    ∧ (∀ code, (runModel c3OkEnv ⟨none, none, none⟩).1 ≠ .exited code)
    ∧ ((runModel c3OkEnv ⟨none, none, none⟩).2.manifestFile = none
       ∧ (runModel c3OkEnv ⟨none, none, none⟩).2.patchDir = none) :=
  ⟨rfl,
   fun code h => by
     rw [show (runModel c3OkEnv ⟨none, none, none⟩).1 = .ok from rfl] at h
     exact RunResult.noConfusion h,
   c3_amended_cleanup c3OkEnv ⟨none, none, none⟩ rfl rfl rfl
     (fun code h => by
       rw [show (runModel c3OkEnv ⟨none, none, none⟩).1 = .ok from rfl] at h
       exact RunResult.noConfusion h)⟩

/-- A successful run with one added file for the C8 counterexample. -/
def c8Env : Env :=
  ⟨"v1", "v2", "L", true, "D", [], [("x", [7])], .ran 0,
   fun _ => .ran true "" []⟩

/-- C8 counterexample: the guard has no release mechanism; on this successful
run the registered staging paths are removed, not persisted. -/
theorem c8_counterexample :
    (runModel c8Env ⟨none, none, none⟩).1 = .ok
    ∧ (runModel c8Env ⟨none, none, none⟩).2.manifestFile = none
    ∧ (runModel c8Env ⟨none, none, none⟩).2.patchDir = none :=
  ⟨rfl, rfl, rfl⟩

/-- C8 amended: the guard is never released; after a successful run the
registered staging paths have been removed and only the fully written output
archive persists. -/
theorem c8_amended_no_release (env : Env) (fs : Fs)
    (h : (runModel env fs).1 = .ok) :
    (runModel env fs).2.manifestFile = none
    ∧ (runModel env fs).2.patchDir = none
    ∧ (runModel env fs).2.tar =
        some (.built (stagedTree (updiffBytes env) env.base env.newT)
          (encodeManifest (runManifest env))) := by
  rw [runModel_ok_fs env fs h]
  exact ⟨rfl, rfl, rfl⟩

/-- C8 amended witness. -/
theorem c8_amended_no_release_witness :
    ((runModel c8Env ⟨none, none, none⟩).1 = .ok)
    ∧ ((runModel c8Env ⟨none, none, none⟩).2.manifestFile = none
      ∧ (runModel c8Env ⟨none, none, none⟩).2.patchDir = none
      ∧ (runModel c8Env ⟨none, none, none⟩).2.tar =
          some (.built (stagedTree (updiffBytes c8Env) c8Env.base c8Env.newT)
            (encodeManifest (runManifest c8Env)))) :=
  ⟨rfl, c8_amended_no_release c8Env ⟨none, none, none⟩ rfl⟩

/-- A trivial environment for the C9 counterexample. -/
def c9Env : Env :=
  ⟨"v1", "v2", "L", false, "D", [], [], .ran 0, fun _ => .ran true "" []⟩

/-- C9 counterexample: with only the manifest staging byproduct pre-existing,
the run does not fail with an already-exists error before mutating: it first
creates the output tar file and the patch directory, then panics on the
manifest `File::create_new(..).expect(..)`. -/
theorem c9_counterexample :
    (runModel c9Env ⟨none, none, some none⟩).1 =
      .panicked "Manifest file should not exist"
    ∧ (runModel c9Env ⟨none, none, some none⟩).2.tar = some .blank
    ∧ (runModel c9Env ⟨none, none, some none⟩).2.patchDir = some [] :=
  ⟨rfl, rfl, rfl⟩

/-- C9 amended: if the output archive already exists the run fails with the
already-exists error and leaves the filesystem — including the first run's
archive — untouched; if instead only a staging byproduct pre-exists, the run
still fails, but only after creating the archive file (and, in the manifest
case, the patch directory), which are left behind. -/
theorem c9_amended_precondition (env : Env) (fs : Fs)
    (hprobe : ∀ msg, env.probe = .spawnErr msg →
      strContains msg "No such file or directory" = false) :
    (fs.tar ≠ none →
      runModel env fs =
        (.err "Tar file already exists. Please delete it before generating a new release.", fs))
    ∧ (fs.tar = none → fs.patchDir ≠ none →
        (runModel env fs).1 = .err "Creating patch dir"
        ∧ (runModel env fs).2 = ⟨some .blank, fs.patchDir, fs.manifestFile⟩)
    ∧ (fs.tar = none → fs.patchDir = none → fs.manifestFile ≠ none →
        (runModel env fs).1 = .panicked "Manifest file should not exist"
        ∧ (runModel env fs).2 = ⟨some .blank, some [], fs.manifestFile⟩) := by
  rw [runModel_eq_afterProbe env fs hprobe]
  refine ⟨?_, ?_, ?_⟩
  · intro htar
    cases ht : fs.tar with
    | none => exact absurd ht htar
    | some t =>
      rw [runAfterProbe]
      simp [ht]
  · intro htar hpd
    cases hd : fs.patchDir with
    | none => exact absurd hd hpd
    | some d =>
      rw [runAfterProbe]
      constructor
      · simp [htar, hd]
      · simp [htar, hd]
  · intro htar hpd hmf
    cases hm : fs.manifestFile with
    | none => exact absurd hm hmf
    | some m =>
      rw [runAfterProbe]
      constructor
      · simp [htar, hpd, hm]
      · simp [htar, hpd, hm]

/-- C9 witness: a second run against an already-written archive fails with
the already-exists error and leaves the filesystem unchanged. -/
theorem c9_amended_precondition_witness :
    (∀ msg, c9Env.probe = .spawnErr msg →
      strContains msg "No such file or directory" = false)
    ∧ ((⟨some (.built [] (Json.str "m")), none, none⟩ : Fs).tar ≠ none)
    ∧ runModel c9Env ⟨some (.built [] (Json.str "m")), none, none⟩ =
        (.err "Tar file already exists. Please delete it before generating a new release.",
         ⟨some (.built [] (Json.str "m")), none, none⟩) :=
  ⟨fun _ h => ProbeResult.noConfusion h,
   fun h => Option.noConfusion h,
   (c9_amended_precondition c9Env ⟨some (.built [] (Json.str "m")), none, none⟩
      (fun _ h => ProbeResult.noConfusion h)).1
     (fun h => Option.noConfusion h)⟩

/-- An environment whose probe fails to spawn with the not-found message. -/
def c10Env : Env :=
  ⟨"v1", "v2", "L", false, "D", [], [], .spawnErr "No such file or directory (os error 2)",
   fun _ => .ran true "" []⟩

/-- C10: the run aborts with the tool-not-found error exactly when spawning
the argument-less probe fails with an error whose text contains "No such file
or directory"; any other spawn failure, and any exit status of the probe, is
ignored and the run proceeds with its post-probe portion. -/
theorem c10_probe (env : Env) (fs : Fs) :
    (∀ msg, env.probe = .spawnErr msg →
      (strContains msg "No such file or directory" = true →
        runModel env fs = (.err "updiff tool not found", fs))
      ∧ (strContains msg "No such file or directory" = false →
        runModel env fs = runAfterProbe env fs))
    ∧ (∀ st, env.probe = .ran st → runModel env fs = runAfterProbe env fs) := by
  constructor
  · intro msg hp
    constructor
    · intro hc
      rw [runModel, hp]
      simp only []
      rw [if_pos hc]
    · intro hc
      rw [runModel, hp]
      simp only []
      rw [hc]
      simp
  · intro st hp
    rw [runModel, hp]

/-- C10 witness: a spawn failure whose message contains the marker aborts the
run with the filesystem untouched. -/
theorem c10_probe_witness :
    (c10Env.probe = .spawnErr "No such file or directory (os error 2)")
    ∧ strContains "No such file or directory (os error 2)"
        "No such file or directory" = true
    ∧ runModel c10Env ⟨none, none, none⟩ =
        (.err "updiff tool not found", ⟨none, none, none⟩) :=
  ⟨rfl, by decide,
   ((c10_probe c10Env ⟨none, none, none⟩).1
     "No such file or directory (os error 2)" rfl).1 (by decide)⟩

end ReleaseGen
